import Mathlib

/-!
Verification of the CoEpi contact-tracing core (Co-Epi/app-backend-rust)
against its natural-language specification.

The repository surface under `src/` is the iOS bridging header
`src/src/ios/c_headers/coepicore.h`, which declares the boundary operations
(`generate_tcn`, `record_tcn`, `fetch_new_reports`, `submit_symptoms`,
`clear_symptoms`, the symptom setters) and the constant `TCK_SIZE_IN_BYTES`.
The Rust implementation behind the header is not part of the provided
sources, so each operation's behaviour is modelled from the specification
(doc comments say exactly which spec contract a definition follows).
-/

namespace Coepi

/-- Byte sequences; chain values, tokens and seeds are all byte strings. -/
abbrev Bytes := List Nat

/-- From `src/src/ios/c_headers/coepicore.h`, line 3: the fixed size in bytes
of a temporary contact key. -/
def TCK_SIZE_IN_BYTES : Nat := 66

/-- Modelled from the spec (section 3, ChainState): the hash chain derived
from the root secret, `v[0] = H(RootSecret)` and `v[i] = H(v[i-1])`. -/
def chainValue (H : Bytes → Bytes) (root : Bytes) : Nat → Bytes
  | 0 => H root
  | i + 1 => H (chainValue H root i)

/-- Modelled from the spec (design note, section 9): cross-language hash-chain
state is an owned, append-only sequence with an explicit current-index cursor. -/
structure ChainEngine where
  rootSecret : Bytes
  cursor : Nat
  values : List Bytes
  deriving DecidableEq

/-- Modelled from the spec (section 4.1): a fresh epoch seeds the chain with
`v[0] = H(RootSecret)` at cursor 0. -/
def initEngine (H : Bytes → Bytes) (root : Bytes) : ChainEngine :=
  { rootSecret := root, cursor := 0, values := [H root] }

/-- Modelled from the spec (section 4.1, `advance`): called once per tick,
appends the next chain value `H(v[cursor])` and moves the cursor forward. -/
def advanceOp (H : Bytes → Bytes) (e : ChainEngine) : ChainEngine :=
  { rootSecret := e.rootSecret, cursor := e.cursor + 1,
    values := e.values ++ [H (e.values.getD e.cursor [])] }

/-- Modelled from the spec (section 4.1, `currentToken`): returns the broadcast
token `Tag(v[cursor])` and leaves the engine state untouched. -/
def currentTokenOp (Tag : Bytes → Bytes) (e : ChainEngine) : Bytes × ChainEngine :=
  (Tag (e.values.getD e.cursor []), e)

/-- Models `generate_tcn` (coepicore.h, line 71). Modelled from the spec
(section 6, token lifecycle): the currentToken-equivalent generation entry
point, emitting the Chain Engine's token for the current tick. -/
def generate_tcn (Tag : Bytes → Bytes) (e : ChainEngine) : Bytes :=
  (currentTokenOp Tag e).1

/-- Modelled from the spec (section 4.1, `reveal`): returns the revealed seed
`v[startIndex]` together with the segment length, leaving the engine state
untouched. -/
def revealOp (e : ChainEngine) (s t : Nat) : (Bytes × Nat) × ChainEngine :=
  ((e.values.getD s [], t - s), e)

/-- The Chain Engine advanced tick by tick from a fresh epoch: the engine
state after `n` calls of `advance` on the initial state. -/
def engineAtTick (H : Bytes → Bytes) (root : Bytes) (n : Nat) : ChainEngine :=
  (advanceOp H)^[n] (initEngine H root)

/-- The chain derivation invariant (spec section 3, ChainState): the stored
values are exactly the sequence `v[0..cursor]` with `v[i] = chainValue H root i`. -/
def WF (H : Bytes → Bytes) (e : ChainEngine) : Prop :=
  e.values = (List.range (e.cursor + 1)).map (chainValue H e.rootSecret)

theorem chainValue_add (H : Bytes → Bytes) (root : Bytes) (s k : Nat) :
    chainValue H root (s + k) = H^[k] (chainValue H root s) := by
  induction k with
  | zero => rfl
  | succ k ih =>
    rw [Function.iterate_succ_apply', ← ih]
    rfl

theorem WF_getD (H : Bytes → Bytes) (e : ChainEngine) (hWF : WF H e)
    (i : Nat) (hi : i ≤ e.cursor) :
    e.values.getD i [] = chainValue H e.rootSecret i := by
  rw [WF] at hWF
  rw [hWF, List.getD_eq_getElem?_getD, List.getElem?_map,
    List.getElem?_range (Nat.lt_succ_of_le hi)]
  rfl

theorem WF_initEngine (H : Bytes → Bytes) (root : Bytes) :
    WF H (initEngine H root) := by
  simp [WF, initEngine, List.range_succ, chainValue]

theorem WF_advanceOp (H : Bytes → Bytes) (e : ChainEngine) (hWF : WF H e) :
    WF H (advanceOp H e) := by
  have hlast : e.values.getD e.cursor [] = chainValue H e.rootSecret e.cursor :=
    WF_getD H e hWF e.cursor (Nat.le_refl _)
  have key : List.map (chainValue H e.rootSecret) (List.range (e.cursor + 1 + 1)) =
      List.map (chainValue H e.rootSecret) (List.range (e.cursor + 1))
        ++ [chainValue H e.rootSecret (e.cursor + 1)] := by
    rw [List.range_succ, List.map_append]
    rfl
  rw [WF] at hWF
  show e.values ++ [H (e.values.getD e.cursor [])] =
    List.map (chainValue H e.rootSecret) (List.range (e.cursor + 1 + 1))
  rw [key, hlast, hWF]
  rfl

theorem engineAtTick_spec (H : Bytes → Bytes) (root : Bytes) (n : Nat) :
    (engineAtTick H root n).rootSecret = root ∧
    (engineAtTick H root n).cursor = n ∧
    WF H (engineAtTick H root n) := by
  induction n with
  | zero => exact ⟨rfl, rfl, WF_initEngine H root⟩
  | succ n ih =>
    obtain ⟨h1, h2, h3⟩ := ih
    rw [engineAtTick, Function.iterate_succ_apply'] at *
    refine ⟨h1, ?_, WF_advanceOp H _ h3⟩
    simp [advanceOp, h2]

/-- Modelled from the spec (section 3, Observation): a token observed from
another device with its time range and tightest proximity estimate. The
`distance` float of `record_tcn` is modelled as an exact rational. -/
structure Observation where
  token : Bytes
  firstSeen : Nat
  lastSeen : Nat
  minDistance : Rat
  deriving DecidableEq

/-- Modelled from the spec (section 4.2, `lookup`): find the Observation
stored for a token, if any. -/
def lookup (store : List Observation) (tok : Bytes) : Option Observation :=
  store.find? (fun o => decide (o.token = tok))

/-- Modelled from the spec (section 4.2, `record`): upsert semantics — if the
token exists, extend the seen interval and replace the distance with the
minimum of old and new; otherwise insert a fresh Observation. -/
def record (store : List Observation) (tok : Bytes) (t : Nat) (d : Rat) :
    List Observation :=
  if store.any (fun o => decide (o.token = tok)) then
    store.map (fun o =>
      if o.token = tok then
        { token := o.token, firstSeen := min o.firstSeen t,
          lastSeen := max o.lastSeen t, minDistance := min o.minDistance d }
      else o)
  else
    store ++ [{ token := tok, firstSeen := t, lastSeen := t, minDistance := d }]

/-- Modelled from the spec (section 7): the error taxonomy of the boundary
operations. -/
inductive CoreError where
  | validationError
  | storageError
  | networkError
  | protocolError
  deriving DecidableEq

/-- Models `record_tcn` (coepicore.h, line 87). Modelled from the spec
(sections 6 and 7): malformed token bytes are a `ValidationError`; a
well-formed token of exactly `TCK_SIZE_IN_BYTES` bytes is recorded in the
Observation Store with upsert semantics. -/
def record_tcn (store : List Observation) (tok : Bytes) (t : Nat) (d : Rat) :
    Except CoreError (List Observation) :=
  if tok.length = TCK_SIZE_IN_BYTES then Except.ok (record store tok t d)
  else Except.error CoreError.validationError

/-- Modelled from the spec (section 3, SymptomAccumulator): the mutable
in-progress structured symptom record, built by setter calls. Enumerated
fields (cough type/status, temperature spot, breathlessness cause) are
modelled by their numeric codes; the temperature float is modelled as an
exact rational. -/
structure SymptomAccumulator where
  coughType : Option Nat
  coughStatus : Option Nat
  coughDays : Option Nat
  feverDays : Option Nat
  feverHighestTemperature : Option Rat
  feverTemperatureSpot : Option Nat
  feverTakenTemperatureToday : Option Bool
  breathlessnessCause : Option Nat
  earliestSymptomDaysAgo : Option Nat
  symptomIds : List Nat
  deriving DecidableEq

/-- The empty accumulator: no symptom data entered. -/
def emptyAccumulator : SymptomAccumulator :=
  { coughType := none, coughStatus := none, coughDays := none,
    feverDays := none, feverHighestTemperature := none,
    feverTemperatureSpot := none, feverTakenTemperatureToday := none,
    breathlessnessCause := none, earliestSymptomDaysAgo := none,
    symptomIds := [] }

/-- Modelled from the spec (section 3, Report): a publishable report revealing
a contiguous chain segment plus an optional symptom memo. -/
structure Report where
  startIndex : Nat
  endIndex : Nat
  revealedSeed : Bytes
  memo : Option SymptomAccumulator
  intervalNumber : Nat
  deriving DecidableEq

/-- Modelled from the spec (section 3, Alert): a locally detected intersection
between a report's implied tokens and a previously observed token. -/
structure Alert where
  matchedToken : Bytes
  matchedObservation : Observation
  report : Report
  deriving DecidableEq

/-- The deduplication identity of an Alert: the (matched token, report
identity) pair of the spec (section 4.5). -/
def alertKey (a : Alert) : Bytes × Report := (a.matchedToken, a.report)

/-- Whether the alert list already holds an alert with the given key. -/
def hasKey (as : List Alert) (k : Bytes × Report) : Bool :=
  as.any (fun b => decide (alertKey b = k))

/-- Modelled from the spec (section 4.5): each hit produces one Alert,
deduplicated by (token, report-identity). -/
def insertAlert (as : List Alert) (a : Alert) : List Alert :=
  if hasKey as (alertKey a) then as else as ++ [a]

/-- Build the Alert for a hit of a report against the Observation Store. -/
def mkAlert (r : Report) (p : Bytes × Observation) : Alert :=
  { matchedToken := p.1, matchedObservation := p.2, report := r }

/-- Modelled from the spec (section 4.5): regenerate the revealed segment by
hashing forward from the revealed seed and apply `Tag` to each chain value to
obtain the implied token sequence; an empty segment yields no tokens. -/
def expandSegment (H Tag : Bytes → Bytes) (seed : Bytes) (len : Nat) :
    List Bytes :=
  (List.range len).map (fun k => Tag (H^[k] seed))

/-- Modelled from the spec (section 7, ProtocolError): a report is valid when
its indices are ordered and the revealed segment does not exceed the maximum
allowed disclosure window `mw`. -/
def reportValid (mw : Nat) (r : Report) : Bool :=
  decide (r.startIndex ≤ r.endIndex) && decide (r.endIndex - r.startIndex ≤ mw)

/-- The matched tokens of a report against an observation store: each implied
token that the store holds, paired with its Observation. -/
def hits (H Tag : Bytes → Bytes) (obs : List Observation) (r : Report) :
    List (Bytes × Observation) :=
  (expandSegment H Tag r.revealedSeed (r.endIndex - r.startIndex)).filterMap
    (fun tok => (lookup obs tok).map (fun o => (tok, o)))

/-- Insert a batch of alerts, each deduplicated by its key. -/
def addAlerts (as : List Alert) (new : List Alert) : List Alert :=
  new.foldl insertAlert as

/-- The local state the Matching Engine reads and writes: the Observation
Store and the Alert Store. -/
structure MatchState where
  observations : List Observation
  alerts : List Alert
  deriving DecidableEq

/-- Modelled from the spec (section 4.5, `process`): reject the report as a
ProtocolError when invalid; otherwise expand its revealed segment, query the
Observation Store for each implied token and add one deduplicated Alert per
hit. -/
def processReport (H Tag : Bytes → Bytes) (mw : Nat) (r : Report)
    (st : MatchState) : Except CoreError MatchState :=
  if reportValid mw r then
    Except.ok
      { observations := st.observations,
        alerts := addAlerts st.alerts ((hits H Tag st.observations r).map (mkAlert r)) }
  else Except.error CoreError.protocolError

/-- Running `process` on the local state: a rejected report leaves the state
unchanged (spec section 7: no operation leaves the stores partially updated
on failure). -/
def processReportRun (H Tag : Bytes → Bytes) (mw : Nat) (r : Report)
    (st : MatchState) : MatchState :=
  match processReport H Tag mw r st with
  | Except.ok st2 => st2
  | Except.error _ => st

/-- Processing a batch of fetched reports in order. -/
def processList (H Tag : Bytes → Bytes) (mw : Nat) (rs : List Report)
    (st : MatchState) : MatchState :=
  rs.foldl (fun m r => processReportRun H Tag mw r m) st

theorem processReportRun_eq (H Tag : Bytes → Bytes) (mw : Nat) (r : Report)
    (st : MatchState) :
    processReportRun H Tag mw r st =
      if reportValid mw r = true then
        { observations := st.observations,
          alerts := addAlerts st.alerts ((hits H Tag st.observations r).map (mkAlert r)) }
      else st := by
  rw [processReportRun, processReport]
  by_cases hv : reportValid mw r = true
  · rw [if_pos hv, if_pos hv]
  · rw [if_neg hv, if_neg hv]

theorem observations_processReportRun (H Tag : Bytes → Bytes) (mw : Nat)
    (r : Report) (st : MatchState) :
    (processReportRun H Tag mw r st).observations = st.observations := by
  rw [processReportRun_eq]
  split <;> rfl

theorem processList_cons (H Tag : Bytes → Bytes) (mw : Nat) (r : Report)
    (tl : List Report) (st : MatchState) :
    processList H Tag mw (r :: tl) st
      = processList H Tag mw tl (processReportRun H Tag mw r st) := by
  rw [processList, processList, List.foldl_cons]

theorem observations_processList (H Tag : Bytes → Bytes) (mw : Nat)
    (rs : List Report) (st : MatchState) :
    (processList H Tag mw rs st).observations = st.observations := by
  induction rs generalizing st with
  | nil => rfl
  | cons r tl ih =>
    rw [processList_cons, ih, observations_processReportRun]

theorem hasKey_insertAlert (as : List Alert) (a : Alert) (k : Bytes × Report)
    (h : hasKey as k = true) : hasKey (insertAlert as a) k = true := by
  rw [insertAlert]
  split
  · exact h
  · rw [hasKey] at h ⊢
    rw [List.any_append, h]
    rfl

theorem hasKey_insertAlert_self (as : List Alert) (a : Alert) :
    hasKey (insertAlert as a) (alertKey a) = true := by
  rw [insertAlert]
  split
  · assumption
  · rw [hasKey, List.any_append]
    simp

theorem insertAlert_of_hasKey (as : List Alert) (a : Alert)
    (h : hasKey as (alertKey a) = true) : insertAlert as a = as := by
  rw [insertAlert, if_pos h]

theorem hasKey_addAlerts (as : List Alert) (new : List Alert)
    (k : Bytes × Report) (h : hasKey as k = true) :
    hasKey (addAlerts as new) k = true := by
  induction new generalizing as with
  | nil => exact h
  | cons b tl ih =>
    rw [addAlerts, List.foldl_cons]
    exact ih (insertAlert as b) (hasKey_insertAlert as b k h)

theorem hasKey_addAlerts_mem (as : List Alert) (new : List Alert)
    (a : Alert) (ha : a ∈ new) :
    hasKey (addAlerts as new) (alertKey a) = true := by
  induction new generalizing as with
  | nil => cases ha
  | cons b tl ih =>
    rw [addAlerts, List.foldl_cons]
    rcases List.mem_cons.mp ha with h1 | h2
    · subst h1
      exact hasKey_addAlerts (insertAlert as a) tl (alertKey a)
        (hasKey_insertAlert_self as a)
    · exact ih (insertAlert as b) h2

theorem addAlerts_of_hasKey (as : List Alert) (new : List Alert)
    (h : ∀ a ∈ new, hasKey as (alertKey a) = true) : addAlerts as new = as := by
  induction new with
  | nil => rfl
  | cons b tl ih =>
    rw [addAlerts, List.foldl_cons,
      insertAlert_of_hasKey as b (h b (List.mem_cons_self b tl))]
    exact ih (fun a ha => h a (List.mem_cons_of_mem b ha))

/-- A report is covered by a state when (if the report is valid) every Alert
it would produce against the state's Observation Store already has its key in
the state's Alert Store. -/
def covered (H Tag : Bytes → Bytes) (mw : Nat) (r : Report) (st : MatchState) :
    Prop :=
  reportValid mw r = true →
    ∀ a ∈ (hits H Tag st.observations r).map (mkAlert r),
      hasKey st.alerts (alertKey a) = true

theorem hasKey_processReportRun (H Tag : Bytes → Bytes) (mw : Nat)
    (r : Report) (st : MatchState) (k : Bytes × Report)
    (h : hasKey st.alerts k = true) :
    hasKey (processReportRun H Tag mw r st).alerts k = true := by
  rw [processReportRun_eq]
  split
  · exact hasKey_addAlerts _ _ k h
  · exact h

theorem covered_processReportRun_self (H Tag : Bytes → Bytes) (mw : Nat)
    (r : Report) (st : MatchState) :
    covered H Tag mw r (processReportRun H Tag mw r st) := by
  intro hv a ha
  rw [processReportRun_eq, if_pos hv] at ha ⊢
  exact hasKey_addAlerts_mem st.alerts _ a ha

theorem covered_processReportRun (H Tag : Bytes → Bytes) (mw : Nat)
    (r r2 : Report) (st : MatchState) (h : covered H Tag mw r st) :
    covered H Tag mw r (processReportRun H Tag mw r2 st) := by
  intro hv a ha
  rw [observations_processReportRun] at ha
  exact hasKey_processReportRun H Tag mw r2 st _ (h hv a ha)

theorem covered_processList (H Tag : Bytes → Bytes) (mw : Nat)
    (r : Report) (rs : List Report) (st : MatchState)
    (h : covered H Tag mw r st) :
    covered H Tag mw r (processList H Tag mw rs st) := by
  induction rs generalizing st with
  | nil => exact h
  | cons b tl ih =>
    rw [processList_cons]
    exact ih (processReportRun H Tag mw b st) (covered_processReportRun H Tag mw r b st h)

theorem processReportRun_of_covered (H Tag : Bytes → Bytes) (mw : Nat)
    (r : Report) (st : MatchState) (h : covered H Tag mw r st) :
    processReportRun H Tag mw r st = st := by
  rw [processReportRun_eq]
  split
  · rw [addAlerts_of_hasKey st.alerts _ (h (by assumption))]
  · rfl

theorem covered_all_processList (H Tag : Bytes → Bytes) (mw : Nat)
    (rs : List Report) (st : MatchState) :
    ∀ r ∈ rs, covered H Tag mw r (processList H Tag mw rs st) := by
  induction rs generalizing st with
  | nil => intro r hr; cases hr
  | cons b tl ih =>
    intro r hr
    rw [processList_cons]
    rcases List.mem_cons.mp hr with h1 | h2
    · subst h1
      exact covered_processList H Tag mw r tl _
        (covered_processReportRun_self H Tag mw r st)
    · exact ih (processReportRun H Tag mw b st) r h2

theorem processList_of_covered (H Tag : Bytes → Bytes) (mw : Nat)
    (rs : List Report) (st : MatchState)
    (h : ∀ r ∈ rs, covered H Tag mw r st) :
    processList H Tag mw rs st = st := by
  induction rs with
  | nil => rfl
  | cons b tl ih =>
    rw [processList_cons,
      processReportRun_of_covered H Tag mw b st (h b (List.mem_cons_self b tl))]
    exact ih (fun r hr => h r (List.mem_cons_of_mem b hr))

theorem processList_idem (H Tag : Bytes → Bytes) (mw : Nat)
    (rs : List Report) (st : MatchState) :
    processList H Tag mw rs (processList H Tag mw rs st)
      = processList H Tag mw rs st :=
  processList_of_covered H Tag mw rs _ (covered_all_processList H Tag mw rs st)

/-- The Alert Store dedup invariant: no two stored alerts share the same
(matched token, report-identity) key. -/
def nodupKeys (as : List Alert) : Prop :=
  as.Pairwise (fun a b => alertKey a ≠ alertKey b)

theorem nodupKeys_insertAlert (as : List Alert) (a : Alert)
    (h : nodupKeys as) : nodupKeys (insertAlert as a) := by
  rw [insertAlert]
  split
  · exact h
  · rename_i hk
    rw [nodupKeys, List.pairwise_append]
    refine ⟨h, List.pairwise_singleton _ _, ?_⟩
    intro x hx y hy
    rw [List.mem_singleton] at hy
    subst hy
    intro he
    apply hk
    rw [hasKey, List.any_eq_true]
    exact ⟨x, hx, by rw [he]; simp⟩

theorem nodupKeys_addAlerts (as : List Alert) (new : List Alert)
    (h : nodupKeys as) : nodupKeys (addAlerts as new) := by
  induction new generalizing as with
  | nil => exact h
  | cons b tl ih =>
    rw [addAlerts, List.foldl_cons]
    exact ih (insertAlert as b) (nodupKeys_insertAlert as b h)

theorem nodupKeys_processReportRun (H Tag : Bytes → Bytes) (mw : Nat)
    (r : Report) (st : MatchState) (h : nodupKeys st.alerts) :
    nodupKeys (processReportRun H Tag mw r st).alerts := by
  rw [processReportRun_eq]
  split
  · exact nodupKeys_addAlerts st.alerts _ h
  · exact h

theorem nodupKeys_processList (H Tag : Bytes → Bytes) (mw : Nat)
    (rs : List Report) (st : MatchState) (h : nodupKeys st.alerts) :
    nodupKeys (processList H Tag mw rs st).alerts := by
  induction rs generalizing st with
  | nil => exact h
  | cons b tl ih =>
    rw [processList_cons]
    exact ih (processReportRun H Tag mw b st)
      (nodupKeys_processReportRun H Tag mw b st h)

/-- The Sync Engine's persisted state: the checkpoint (highest interval fully
fetched) and the local Matching Engine state. -/
structure SyncState where
  lastFetched : Nat
  mstate : MatchState
  deriving DecidableEq

/-- Modelled from the spec (section 4.4): the next run resumes from
`lastFetched + 1`. -/
def resumeFrom (st : SyncState) : Nat := st.lastFetched + 1

/-- Models `fetch_new_reports` (coepicore.h, line 67). Modelled from the spec
(sections 4.4 and 4.5): fetch the next interval bucket `lastFetched + 1`,
process every report in it through the Matching Engine, and persist the
checkpoint only after the interval is completely fetched and processed.
`reportsOf` is the interval-addressed remote store. -/
def fetch_new_reports (H Tag : Bytes → Bytes) (mw : Nat)
    (reportsOf : Nat → List Report) (st : SyncState) : SyncState :=
  { lastFetched := resumeFrom st,
    mstate := processList H Tag mw (reportsOf (resumeFrom st)) st.mstate }

/-- Modelled from the spec (section 8, fetch resumption): a run of
`fetch_new_reports` interrupted by a crash after the interval's reports were
processed but before the checkpoint was persisted — the matching state
advanced durably, the checkpoint did not. -/
def fetchCrashBeforeCheckpoint (H Tag : Bytes → Bytes) (mw : Nat)
    (reportsOf : Nat → List Report) (st : SyncState) : SyncState :=
  { lastFetched := st.lastFetched,
    mstate := processList H Tag mw (reportsOf (resumeFrom st)) st.mstate }

/-- Models `clear_symptoms` (coepicore.h, line 59). Modelled from the spec
(section 4.3, `clear`): resets the accumulator to empty. -/
def clear_symptoms (_acc : SymptomAccumulator) : SymptomAccumulator :=
  emptyAccumulator

/-- Models `set_cough_days` (coepicore.h, line 107). Modelled from the spec
(sections 4.3 and 6): the `(c_is_set, c_days)` pair encodes an optional
value; the setter stores it in the accumulator, last write wins. -/
def set_cough_days (c_is_set : Nat) (c_days : Nat)
    (acc : SymptomAccumulator) : SymptomAccumulator :=
  if c_is_set = 0 then { acc with coughDays := none }
  else { acc with coughDays := some c_days }

/-- Models `set_fever_days` (coepicore.h, line 123). Modelled from the spec
(sections 4.3 and 6): stores the optional fever-days value, last write wins. -/
def set_fever_days (c_is_set : Nat) (c_days : Nat)
    (acc : SymptomAccumulator) : SymptomAccumulator :=
  if c_is_set = 0 then { acc with feverDays := none }
  else { acc with feverDays := some c_days }

/-- Models `set_earliest_symptom_started_days_ago` (coepicore.h, line 119).
Modelled from the spec (sections 4.3 and 6): stores the optional
earliest-symptom-days-ago value, last write wins. -/
def set_earliest_symptom_started_days_ago (c_is_set : Nat) (c_days : Nat)
    (acc : SymptomAccumulator) : SymptomAccumulator :=
  if c_is_set = 0 then { acc with earliestSymptomDaysAgo := none }
  else { acc with earliestSymptomDaysAgo := some c_days }

/-- Models `set_fever_highest_temperature_taken` (coepicore.h, line 127).
Modelled from the spec (sections 4.3 and 6): stores the optional highest
taken temperature, last write wins. -/
def set_fever_highest_temperature_taken (c_is_set : Nat) (c_temp : Rat)
    (acc : SymptomAccumulator) : SymptomAccumulator :=
  if c_is_set = 0 then { acc with feverHighestTemperature := none }
  else { acc with feverHighestTemperature := some c_temp }

/-- Models `submit_symptoms` (coepicore.h, line 147). Modelled from the spec
(section 4.3, `submit`): snapshots the current accumulator, asks the Chain
Engine to reveal the chain segment covering the disclosure window `window`,
bundles the snapshot as the optional memo (absent when the accumulator is
empty), returns the immutable Report, and clears the accumulator. -/
def submit_symptoms (e : ChainEngine) (window iv : Nat)
    (acc : SymptomAccumulator) : Report × SymptomAccumulator :=
  ({ startIndex := e.cursor - window, endIndex := e.cursor,
     revealedSeed := ((revealOp e (e.cursor - window) e.cursor).1).1,
     memo := if acc = emptyAccumulator then none else some acc,
     intervalNumber := iv },
   emptyAccumulator)

/-- A concrete stand-in one-way hash, used to instantiate theorems about the
abstract hash parameter on concrete inputs. -/
def demoHash (b : Bytes) : Bytes := 0 :: b

/-- A concrete stand-in tag transform, distinct from the hash and from the
identity. -/
def demoTag (b : Bytes) : Bytes := 1 :: b

/-- A concrete stand-in hash with a fixed output size of
`TCK_SIZE_IN_BYTES` bytes. -/
def demoHash66 (b : Bytes) : Bytes :=
  List.replicate TCK_SIZE_IN_BYTES (b.foldl (fun a x => a + x) 0 + 1)

/-- A concrete stand-in tag transform with a fixed output size of
`TCK_SIZE_IN_BYTES` bytes. -/
def demoTag66 (b : Bytes) : Bytes :=
  List.replicate TCK_SIZE_IN_BYTES (b.foldl (fun a x => a + x) 0 + 2)

theorem demoTag_ne_id : demoTag ≠ id := by
  intro hid
  have h0 := congrFun hid []
  simp [demoTag] at h0

/-- A concrete report whose two-token segment hits `demoMatchState`. -/
def demoReport : Report :=
  { startIndex := 0, endIndex := 2, revealedSeed := [3], memo := none,
    intervalNumber := 0 }

/-- A concrete local state whose Observation Store holds the first implied
token of `demoReport` and whose Alert Store is empty. -/
def demoMatchState : MatchState :=
  { observations := [{ token := [1, 3], firstSeen := 1, lastSeen := 1,
                       minDistance := 1 }],
    alerts := [] }

/-- C1: Round-trip law between generation and reveal/expand: for every epoch
and every tick index `i` with `startIndex ≤ i`, hashing forward from
`revealedSeed = v[startIndex]` exactly `i - startIndex` times and applying
`Tag` reproduces exactly the token the Chain Engine emitted at tick `i`. -/
theorem roundtrip_generate_reveal (H Tag : Bytes → Bytes) (root : Bytes)
    (n s t i : Nat) (hs : s ≤ n) (hi : s ≤ i) :
    Tag (H^[i - s] (((revealOp (engineAtTick H root n) s t).1).1)) =
      generate_tcn Tag (engineAtTick H root i) := by
  obtain ⟨hr1, hc1, hw1⟩ := engineAtTick_spec H root n
  obtain ⟨hr2, hc2, hw2⟩ := engineAtTick_spec H root i
  have h1 : ((revealOp (engineAtTick H root n) s t).1).1 = chainValue H root s := by
    rw [revealOp]
    show (engineAtTick H root n).values.getD s [] = chainValue H root s
    rw [WF_getD H _ hw1 s (by rw [hc1]; exact hs), hr1]
  have h2 : generate_tcn Tag (engineAtTick H root i)
      = Tag (chainValue H root i) := by
    rw [generate_tcn, currentTokenOp]
    show Tag ((engineAtTick H root i).values.getD (engineAtTick H root i).cursor [])
      = Tag (chainValue H root i)
    rw [WF_getD H _ hw2 _ (Nat.le_refl _), hr2, hc2]
  rw [h1, h2, ← chainValue_add, Nat.add_sub_cancel' hi]

/-- Witness for C1: the token emitted at tick 4 is recovered from the seed
revealed at index 1 by an engine advanced to tick 3. -/
theorem roundtrip_generate_reveal_witness :
    demoTag (demoHash^[4 - 1] (((revealOp (engineAtTick demoHash [7] 3) 1 5).1).1)) =
      generate_tcn demoTag (engineAtTick demoHash [7] 4) :=
  roundtrip_generate_reveal demoHash demoTag [7] 3 1 5 4 (by decide) (by decide)

/-- C2: Matching is idempotent per report: for every Report `r` and every
state of the Observation Store and Alert Store, running `process r` twice, in
any order with other reports, yields the same state (so the same set of
Alerts) as running it once, and reprocessing never produces two Alerts for
the same (matched token, report identity) pair. -/
theorem matching_idempotent (H Tag : Bytes → Bytes) (mw : Nat) (r : Report)
    (rs : List Report) (st : MatchState) :
    processReportRun H Tag mw r
        (processList H Tag mw rs (processReportRun H Tag mw r st))
      = processList H Tag mw rs (processReportRun H Tag mw r st) ∧
    (nodupKeys st.alerts →
      nodupKeys (processList H Tag mw rs (processReportRun H Tag mw r st)).alerts) := by
  constructor
  · exact processReportRun_of_covered H Tag mw r _
      (covered_processList H Tag mw r rs _
        (covered_processReportRun_self H Tag mw r st))
  · intro h
    exact nodupKeys_processList H Tag mw rs _
      (nodupKeys_processReportRun H Tag mw r st h)

/-- Witness for C2: reprocessing `demoReport` after a first processing run on
the concrete state is a no-op, and the resulting Alert Store has no duplicate
(token, report) keys. -/
theorem matching_idempotent_witness :
    processReportRun demoHash demoTag 5 demoReport
        (processList demoHash demoTag 5 []
          (processReportRun demoHash demoTag 5 demoReport demoMatchState))
      = processList demoHash demoTag 5 []
          (processReportRun demoHash demoTag 5 demoReport demoMatchState) ∧
    nodupKeys (processList demoHash demoTag 5 []
        (processReportRun demoHash demoTag 5 demoReport demoMatchState)).alerts :=
  ⟨(matching_idempotent demoHash demoTag 5 demoReport [] demoMatchState).1,
   (matching_idempotent demoHash demoTag 5 demoReport [] demoMatchState).2
     List.Pairwise.nil⟩

/-- C3: Observation record is an upsert with min/max semantics: recording a
fresh token twice leaves the store with exactly one Observation for that
token carrying the minimal first-seen, maximal last-seen and minimal
distance. -/
theorem record_upsert_minmax (store : List Observation) (tok : Bytes)
    (t1 t2 : Nat) (d1 d2 : Rat) (h : lookup store tok = none) :
    lookup (record (record store tok t1 d1) tok t2 d2) tok =
      some { token := tok, firstSeen := min t1 t2, lastSeen := max t1 t2,
             minDistance := min d1 d2 } ∧
    (record (record store tok t1 d1) tok t2 d2).countP
        (fun o => decide (o.token = tok)) = 1 := by
  have hnone : ∀ o ∈ store, ¬ o.token = tok := by
    intro o ho hc
    have h2 := List.find?_eq_none.mp h o ho
    simp [hc] at h2
  have hany : store.any (fun o => decide (o.token = tok)) = false := by
    rw [List.any_eq_false]
    intro o ho
    simp [hnone o ho]
  have step1 : record store tok t1 d1 = store ++
      [({ token := tok, firstSeen := t1, lastSeen := t1,
          minDistance := d1 } : Observation)] := by
    rw [record, if_neg (by simp [hany])]
  have hany2 : (store ++
      [({ token := tok, firstSeen := t1, lastSeen := t1,
          minDistance := d1 } : Observation)]).any
        (fun o => decide (o.token = tok)) = true := by
    rw [List.any_append]
    simp
  have hmapid : store.map (fun o =>
      if o.token = tok then
        ({ token := o.token, firstSeen := min o.firstSeen t2,
           lastSeen := max o.lastSeen t2,
           minDistance := min o.minDistance d2 } : Observation)
      else o) = store := by
    have h3 := List.map_congr_left (fun o ho => by
      simp [hnone o ho] :
      ∀ o ∈ store, (fun o =>
        if o.token = tok then
          ({ token := o.token, firstSeen := min o.firstSeen t2,
             lastSeen := max o.lastSeen t2,
             minDistance := min o.minDistance d2 } : Observation)
        else o) o = id o)
    rw [h3, List.map_id]
  have step2 : record (record store tok t1 d1) tok t2 d2 = store ++
      [({ token := tok, firstSeen := min t1 t2, lastSeen := max t1 t2,
          minDistance := min d1 d2 } : Observation)] := by
    rw [step1, record, if_pos hany2, List.map_append, hmapid]
    simp
  rw [step2]
  constructor
  · rw [lookup, List.find?_append]
    rw [lookup] at h
    rw [h]
    simp
  · rw [List.countP_append]
    have hz : store.countP (fun o => decide (o.token = tok)) = 0 := by
      rw [List.countP_eq_zero]
      intro o ho
      simp [hnone o ho]
    rw [hz]
    simp

/-- Witness for C3: recording the token `[5]` twice in an empty store, with
timestamps 7 then 4 and distances 3 then 6, leaves exactly one Observation
with firstSeen 4, lastSeen 7 and minDistance 3. -/
theorem record_upsert_minmax_witness :
    lookup (record (record [] [5] 7 3) [5] 4 6) [5] =
      some { token := [5], firstSeen := min 7 4, lastSeen := max 7 4,
             minDistance := min 3 6 } ∧
    (record (record [] [5] 7 3) [5] 4 6).countP
        (fun o => decide (o.token = [5])) = 1 :=
  record_upsert_minmax [] [5] 7 4 3 6 rfl

/-- C4: A Report whose startIndex equals its endIndex yields zero implied
tokens when expanded by the Matching Engine and therefore never produces an
Alert: processing it leaves the state unchanged for every Observation Store
state. -/
theorem empty_segment_no_alerts (H Tag : Bytes → Bytes) (mw : Nat)
    (r : Report) (st : MatchState) (h : r.startIndex = r.endIndex) :
    expandSegment H Tag r.revealedSeed (r.endIndex - r.startIndex) = [] ∧
    processReportRun H Tag mw r st = st := by
  have hlen : r.endIndex - r.startIndex = 0 := by
    rw [h]
    exact Nat.sub_self _
  have hexp : expandSegment H Tag r.revealedSeed (r.endIndex - r.startIndex) = [] := by
    rw [hlen]
    rfl
  refine ⟨hexp, ?_⟩
  rw [processReportRun_eq]
  split
  · have hh : hits H Tag st.observations r = [] := by
      rw [hits, hexp]
      rfl
    rw [hh]
    rfl
  · rfl

/-- Witness for C4: the concrete report with startIndex = endIndex = 5
expands to no tokens and its processing leaves the concrete state unchanged. -/
theorem empty_segment_no_alerts_witness :
    expandSegment demoHash demoTag
        ({ startIndex := 5, endIndex := 5, revealedSeed := [2], memo := none,
           intervalNumber := 0 } : Report).revealedSeed
        (({ startIndex := 5, endIndex := 5, revealedSeed := [2], memo := none,
            intervalNumber := 0 } : Report).endIndex
          - ({ startIndex := 5, endIndex := 5, revealedSeed := [2], memo := none,
               intervalNumber := 0 } : Report).startIndex) = [] ∧
    processReportRun demoHash demoTag 5
        { startIndex := 5, endIndex := 5, revealedSeed := [2], memo := none,
          intervalNumber := 0 } demoMatchState = demoMatchState :=
  empty_segment_no_alerts demoHash demoTag 5
    { startIndex := 5, endIndex := 5, revealedSeed := [2], memo := none,
      intervalNumber := 0 } demoMatchState rfl

/-- C5: A fetched report with endIndex < startIndex, or whose revealed
segment length exceeds the maximum allowed disclosure window, is rejected as
a ProtocolError without expanding or matching: no Alert is created and the
stores are unchanged. -/
theorem protocol_error_rejected (H Tag : Bytes → Bytes) (mw : Nat)
    (r : Report) (st : MatchState)
    (h : r.endIndex < r.startIndex ∨ mw < r.endIndex - r.startIndex) :
    processReport H Tag mw r st = Except.error CoreError.protocolError ∧
    processReportRun H Tag mw r st = st := by
  have hv : reportValid mw r = false := by
    rw [reportValid]
    rcases h with h1 | h2
    · simp [Nat.not_le.mpr h1]
    · simp [Nat.not_le.mpr h2]
  constructor
  · rw [processReport, if_neg (by simp [hv])]
  · rw [processReportRun_eq, if_neg (by simp [hv])]

/-- Witness for C5: the concrete report with startIndex 3 and endIndex 1 is
rejected as a ProtocolError and processing leaves the concrete state
unchanged. -/
theorem protocol_error_rejected_witness :
    processReport demoHash demoTag 5
        { startIndex := 3, endIndex := 1, revealedSeed := [2], memo := none,
          intervalNumber := 0 } demoMatchState
      = Except.error CoreError.protocolError ∧
    processReportRun demoHash demoTag 5
        { startIndex := 3, endIndex := 1, revealedSeed := [2], memo := none,
          intervalNumber := 0 } demoMatchState = demoMatchState :=
  protocol_error_rejected demoHash demoTag 5
    { startIndex := 3, endIndex := 1, revealedSeed := [2], memo := none,
      intervalNumber := 0 } demoMatchState (Or.inl (by decide))

/-- C6: Chain derivation invariant: within every rotation epoch the
ChainState is the sequence `v[0..n]` with `v[0] = H(RootSecret)` and
`v[i] = H(v[i-1])`, every emitted token equals `Tag(v[cursor])` for a tag
transform distinct from the identity, and the operations advance,
currentToken and reveal preserve this invariant. -/
theorem chain_invariant (H Tag : Bytes → Bytes) (_hTag : Tag ≠ id)
    (e : ChainEngine) (hWF : WF H e) (s t : Nat) :
    WF H (advanceOp H e) ∧
    (currentTokenOp Tag e).2 = e ∧
    (revealOp e s t).2 = e ∧
    generate_tcn Tag e = Tag (chainValue H e.rootSecret e.cursor) ∧
    e.values.getD 0 [] = H e.rootSecret ∧
    (∀ i, i + 1 ≤ e.cursor →
      e.values.getD (i + 1) [] = H (e.values.getD i [])) := by
  refine ⟨WF_advanceOp H e hWF, rfl, rfl, ?_, ?_, ?_⟩
  · rw [generate_tcn, currentTokenOp]
    show Tag (e.values.getD e.cursor []) = Tag (chainValue H e.rootSecret e.cursor)
    rw [WF_getD H e hWF e.cursor (Nat.le_refl _)]
  · rw [WF_getD H e hWF 0 (Nat.zero_le _)]
    rfl
  · intro i hi
    rw [WF_getD H e hWF (i + 1) hi,
      WF_getD H e hWF i (Nat.le_of_succ_le hi)]
    rfl

/-- Witness for C6: the invariant statement at a fresh concrete epoch, with
the concrete tag transform shown distinct from the identity. -/
theorem chain_invariant_witness :
    WF demoHash (advanceOp demoHash (initEngine demoHash [9])) ∧
    (currentTokenOp demoTag (initEngine demoHash [9])).2 = initEngine demoHash [9] ∧
    (revealOp (initEngine demoHash [9]) 0 2).2 = initEngine demoHash [9] ∧
    generate_tcn demoTag (initEngine demoHash [9])
      = demoTag (chainValue demoHash (initEngine demoHash [9]).rootSecret
          (initEngine demoHash [9]).cursor) ∧
    (initEngine demoHash [9]).values.getD 0 []
      = demoHash (initEngine demoHash [9]).rootSecret ∧
    (∀ i, i + 1 ≤ (initEngine demoHash [9]).cursor →
      (initEngine demoHash [9]).values.getD (i + 1) []
        = demoHash ((initEngine demoHash [9]).values.getD i [])) :=
  chain_invariant demoHash demoTag demoTag_ne_id (initEngine demoHash [9])
    (WF_initEngine demoHash [9]) 0 2

/-- C7: For every accumulator state, submit returns a Report whose memo is a
snapshot of the accumulator at the moment of the call, absent exactly when
the accumulator is empty, whose revealed segment covers the disclosure
window, and afterwards the accumulator is empty. -/
theorem submit_snapshot_clears (e : ChainEngine) (window iv : Nat)
    (acc : SymptomAccumulator) :
    (submit_symptoms e window iv acc).1.memo
        = (if acc = emptyAccumulator then none else some acc) ∧
    (submit_symptoms e window iv acc).2 = emptyAccumulator ∧
    (submit_symptoms e window iv acc).1.startIndex = e.cursor - window ∧
    (submit_symptoms e window iv acc).1.endIndex = e.cursor :=
  ⟨rfl, rfl, rfl, rfl⟩

/-- C8: Fetch-checkpoint resumption invariant: the checkpoint advances to the
fetched interval only after it is completely fetched; a crash before the
checkpoint is persisted causes the same interval to be refetched on the next
run, and refetching plus reprocessing produces exactly the state of a single
successful run, hence no duplicate Alerts. -/
theorem fetch_checkpoint_resumption (H Tag : Bytes → Bytes) (mw : Nat)
    (reportsOf : Nat → List Report) (st : SyncState) :
    (fetch_new_reports H Tag mw reportsOf st).lastFetched = st.lastFetched + 1 ∧
    resumeFrom (fetchCrashBeforeCheckpoint H Tag mw reportsOf st) = resumeFrom st ∧
    fetch_new_reports H Tag mw reportsOf
        (fetchCrashBeforeCheckpoint H Tag mw reportsOf st)
      = fetch_new_reports H Tag mw reportsOf st := by
  refine ⟨rfl, rfl, ?_⟩
  show ({ lastFetched := st.lastFetched + 1,
          mstate := processList H Tag mw (reportsOf (st.lastFetched + 1))
            (processList H Tag mw (reportsOf (st.lastFetched + 1)) st.mstate) } : SyncState)
    = { lastFetched := st.lastFetched + 1,
        mstate := processList H Tag mw (reportsOf (st.lastFetched + 1)) st.mstate }
  rw [processList_idem]

/-- C9: Every temporary contact key crossing the public interface has the
fixed length TCK_SIZE_IN_BYTES = 66: when the hash and tag transforms have
fixed 66-byte output, every chain value, emitted token, revealed seed and
expanded token has length 66, and record_tcn accepts exactly the tokens of
length 66. -/
theorem tck_fixed_size (H Tag : Bytes → Bytes)
    (hH : ∀ b, (H b).length = TCK_SIZE_IN_BYTES)
    (hTag : ∀ b, (Tag b).length = TCK_SIZE_IN_BYTES) :
    (∀ root i, (chainValue H root i).length = TCK_SIZE_IN_BYTES) ∧
    (∀ e : ChainEngine, (generate_tcn Tag e).length = TCK_SIZE_IN_BYTES) ∧
    (∀ e : ChainEngine, WF H e → ∀ s t, s ≤ e.cursor →
      (((revealOp e s t).1).1).length = TCK_SIZE_IN_BYTES) ∧
    (∀ seed len tok, tok ∈ expandSegment H Tag seed len →
      tok.length = TCK_SIZE_IN_BYTES) ∧
    (∀ store tok t d,
      record_tcn store tok t d = Except.error CoreError.validationError ↔
        tok.length ≠ TCK_SIZE_IN_BYTES) := by
  have hchain : ∀ root i, (chainValue H root i).length = TCK_SIZE_IN_BYTES := by
    intro root i
    cases i with
    | zero => exact hH root
    | succ j => exact hH _
  refine ⟨hchain, ?_, ?_, ?_, ?_⟩
  · intro e
    exact hTag _
  · intro e hWF s t hs
    rw [revealOp]
    show (e.values.getD s []).length = TCK_SIZE_IN_BYTES
    rw [WF_getD H e hWF s hs]
    exact hchain _ s
  · intro seed len tok htok
    rw [expandSegment] at htok
    obtain ⟨k, hk, rfl⟩ := List.mem_map.mp htok
    exact hTag _
  · intro store tok t d
    constructor
    · intro he hlen
      rw [record_tcn, if_pos hlen] at he
      cases he
    · intro hlen
      rw [record_tcn, if_neg hlen]

/-- Witness for C9: with the concrete fixed-output hash and tag, the chain
value at index 3 of a concrete root has exactly TCK_SIZE_IN_BYTES bytes. -/
theorem tck_fixed_size_witness :
    (chainValue demoHash66 [4] 3).length = TCK_SIZE_IN_BYTES :=
  (tck_fixed_size demoHash66 demoTag66
      (fun b => by simp [demoHash66])
      (fun b => by simp [demoTag66])).1 [4] 3

/-- C10: Optional-field setters ignore the value when the flag is unset:
calling any of the optional symptom setters with c_is_set = 0 and value d1
produces the same accumulator state, and the same memo in a subsequently
submitted report, as calling it with c_is_set = 0 and value d2. -/
theorem unset_setter_value_independent (acc : SymptomAccumulator)
    (d1 d2 : Nat) (q1 q2 : Rat) (e : ChainEngine) (window iv : Nat) :
    set_cough_days 0 d1 acc = set_cough_days 0 d2 acc ∧
    set_fever_days 0 d1 acc = set_fever_days 0 d2 acc ∧
    set_earliest_symptom_started_days_ago 0 d1 acc
      = set_earliest_symptom_started_days_ago 0 d2 acc ∧
    set_fever_highest_temperature_taken 0 q1 acc
      = set_fever_highest_temperature_taken 0 q2 acc ∧
    (submit_symptoms e window iv (set_cough_days 0 d1 acc)).1.memo
      = (submit_symptoms e window iv (set_cough_days 0 d2 acc)).1.memo :=
  ⟨rfl, rfl, rfl, rfl, rfl⟩

end Coepi
